import Mathlib

/-!
# Verification of the migration-safety pipeline (`backup.py`)

Shallow embedding of the database backup/migration safety module:
checksum-verified backups, trial migration on a disposable copy, and
post-migration row-count validation, together with the patch applier
and the `safe_migrate` orchestrator.

Conventions of the embedding:
* A database file's content is an abstract type `δ`.  The effectful
  primitives the module calls out to (SQL script execution,
  `sha256_file`, `shutil.copy2`, `table_row_counts`) are supplied as a
  `SqlModel δ` record of pure functions; the control flow, ordering,
  branching and message construction are translated statement-by-statement
  from the source.
* The filesystem state threaded through `safe_migrate` /
  `create_verified_backup` is a `World δ` (live file, `.backups`
  directory listing, patches directory listing).
* Machine effects on a `sqlite3.Connection` are `Conn δ` (file content
  plus the connection-scoped `PRAGMA foreign_keys` flag).  Because the
  connections are opened with `isolation_level=None` (autocommit), each
  executed statement is its own atomic commit unit; the applier therefore
  also returns the list of statements it executed (`Stmt` trace), and a
  crash can leave any `List.take` prefix of that trace committed.
-/

/-! ## Row-count validator (`validate_row_counts`) -/

/-- Message built by the table-disappeared branch:
`f"Table '{table}' MISSING after migration (had {count_before} rows)"`. -/
def missingMsg (table : String) (countBefore : Nat) : String :=
  "Table '" ++ table ++ "' MISSING after migration (had " ++ toString countBefore ++ " rows)"

/-- Message built by the shrunk-table branch:
`f"Table '{table}' lost rows: {count_before} -> {count_after}"`. -/
def lostMsg (table : String) (countBefore countAfter : Nat) : String :=
  "Table '" ++ table ++ "' lost rows: " ++ toString countBefore ++ " -> " ++ toString countAfter

/-- Python `str.endswith` on the character sequence (executable in the
kernel, unlike `String.endsWith`). -/
def strEndsWith (s suffix : String) : Bool := suffix.data.isSuffixOf s.data

/-- `validate_row_counts(before, after)` from `backup.py`.  Snapshots are
association lists (Python dicts in insertion order); `after.get(table)`
is `List.lookup`; `table.endswith("_new")` is `strEndsWith`. -/
def validate_row_counts : List (String × Nat) → List (String × Nat) → List String
  | [], _ => []
  | (table, countBefore) :: rest, after =>
    if strEndsWith table "_new" then
      validate_row_counts rest after
    else
      match List.lookup table after with
      | none => missingMsg table countBefore :: validate_row_counts rest after
      | some countAfter =>
        if countAfter < countBefore then
          lostMsg table countBefore countAfter :: validate_row_counts rest after
        else
          validate_row_counts rest after

/-- Structured form of the two error message shapes emitted by
`validate_row_counts` (the spec's `TableMissing` / `RowsLost`). -/
inductive VErr : Type
  | missing (table : String) (countBefore : Nat)
  | lost (table : String) (countBefore countAfter : Nat)
deriving DecidableEq, Repr

/-- Render a structured validation error as the exact message string the
source produces. -/
def renderVErr : VErr → String
  | .missing t cb => missingMsg t cb
  | .lost t cb ca => lostMsg t cb ca

/-- The table a validation error is about. -/
def errTable : VErr → String
  | .missing t _ => t
  | .lost t _ _ => t

/-- Structured mirror of `validate_row_counts`: same traversal, same
branches, producing `VErr` values instead of formatted strings. -/
def vErrors : List (String × Nat) → List (String × Nat) → List VErr
  | [], _ => []
  | (table, countBefore) :: rest, after =>
    if strEndsWith table "_new" then
      vErrors rest after
    else
      match List.lookup table after with
      | none => VErr.missing table countBefore :: vErrors rest after
      | some countAfter =>
        if countAfter < countBefore then
          VErr.lost table countBefore countAfter :: vErrors rest after
        else
          vErrors rest after

theorem validate_eq_render (before after : List (String × Nat)) :
    validate_row_counts before after = (vErrors before after).map renderVErr := by
  induction before with
  | nil => rfl
  | cons hd rest ih =>
    obtain ⟨table, countBefore⟩ := hd
    simp only [validate_row_counts, vErrors]
    split
    · exact ih
    · cases h : List.lookup table after with
      | none => simpa [renderVErr] using ih
      | some ca =>
        by_cases hlt : ca < countBefore
        · simpa [hlt, renderVErr] using ih
        · simpa [hlt] using ih

/-- Every emitted error arises from a `before` entry that is not a scratch
table and really is missing (resp. shrunk) in `after`. -/
theorem vErrors_shape (before after : List (String × Nat)) :
    ∀ e ∈ vErrors before after,
      (∀ t cb, e = VErr.missing t cb →
        (t, cb) ∈ before ∧ strEndsWith t "_new" = false ∧ List.lookup t after = none) ∧
      (∀ t cb ca, e = VErr.lost t cb ca →
        (t, cb) ∈ before ∧ strEndsWith t "_new" = false ∧
          List.lookup t after = some ca ∧ ca < cb) := by
  induction before with
  | nil => intro e he; cases he
  | cons hd rest ih =>
    obtain ⟨table, countBefore⟩ := hd
    intro e he
    simp only [vErrors] at he
    split at he
    · rename_i hscr
      refine ⟨?_, ?_⟩
      · intro t cb hform
        obtain ⟨h1, h2, h3⟩ := (ih e he).1 t cb hform
        exact ⟨List.mem_cons_of_mem _ h1, h2, h3⟩
      · intro t cb ca hform
        obtain ⟨h1, h2, h3, h4⟩ := (ih e he).2 t cb ca hform
        exact ⟨List.mem_cons_of_mem _ h1, h2, h3, h4⟩
    · rename_i hscr
      cases hlook : List.lookup table after with
      | none =>
        rw [hlook] at he
        rcases List.mem_cons.mp he with heq | htail
        · subst heq
          refine ⟨?_, ?_⟩
          · intro t cb hform
            cases hform
            exact ⟨List.mem_cons_self _ _, Bool.eq_false_iff.mpr hscr, hlook⟩
          · intro t cb ca hform; cases hform
        · refine ⟨?_, ?_⟩
          · intro t cb hform
            obtain ⟨h1, h2, h3⟩ := (ih e htail).1 t cb hform
            exact ⟨List.mem_cons_of_mem _ h1, h2, h3⟩
          · intro t cb ca hform
            obtain ⟨h1, h2, h3, h4⟩ := (ih e htail).2 t cb ca hform
            exact ⟨List.mem_cons_of_mem _ h1, h2, h3, h4⟩
      | some ca0 =>
        rw [hlook] at he
        dsimp only at he
        by_cases hlt : ca0 < countBefore
        · rw [if_pos hlt] at he
          rcases List.mem_cons.mp he with heq | htail
          · subst heq
            refine ⟨?_, ?_⟩
            · intro t cb hform; cases hform
            · intro t cb ca hform
              cases hform
              exact ⟨List.mem_cons_self _ _, Bool.eq_false_iff.mpr hscr, hlook, hlt⟩
          · refine ⟨?_, ?_⟩
            · intro t cb hform
              obtain ⟨h1, h2, h3⟩ := (ih e htail).1 t cb hform
              exact ⟨List.mem_cons_of_mem _ h1, h2, h3⟩
            · intro t cb ca hform
              obtain ⟨h1, h2, h3, h4⟩ := (ih e htail).2 t cb ca hform
              exact ⟨List.mem_cons_of_mem _ h1, h2, h3, h4⟩
        · rw [if_neg hlt] at he
          refine ⟨?_, ?_⟩
          · intro t cb hform
            obtain ⟨h1, h2, h3⟩ := (ih e he).1 t cb hform
            exact ⟨List.mem_cons_of_mem _ h1, h2, h3⟩
          · intro t cb ca hform
            obtain ⟨h1, h2, h3, h4⟩ := (ih e he).2 t cb ca hform
            exact ⟨List.mem_cons_of_mem _ h1, h2, h3, h4⟩

/-- The table of every emitted error is a key of `before`. -/
theorem vErrors_table_mem (before after : List (String × Nat)) :
    ∀ e ∈ vErrors before after, errTable e ∈ before.map Prod.fst := by
  intro e he
  have h := vErrors_shape before after e he
  cases e with
  | missing t cb =>
    obtain ⟨h1, _, _⟩ := h.1 t cb rfl
    exact List.mem_map.mpr ⟨(t, cb), h1, rfl⟩
  | lost t cb ca =>
    obtain ⟨h1, _, _, _⟩ := h.2 t cb ca rfl
    exact List.mem_map.mpr ⟨(t, cb), h1, rfl⟩

/-- No emitted error names a scratch (`_new`-suffixed) table. -/
theorem vErrors_no_scratch (before after : List (String × Nat)) :
    ∀ e ∈ vErrors before after, strEndsWith (errTable e) "_new" = false := by
  intro e he
  have h := vErrors_shape before after e he
  cases e with
  | missing t cb => exact ((h.1 t cb rfl).2).1
  | lost t cb ca => exact ((h.2 t cb ca rfl).2).1

/-! ## Patch discovery and ordering (`_apply_patches_to`, lines 104-132)

The source discovers files via `patches_dir.glob("patch-*.sql")` and then
parses the version with `re.match(r"patch-(\d+)\.sql", path.name)`, which
anchors at the START of the name only.  Both filters are embedded exactly. -/

/-- Value of `int(...)` on a digit string (leading zeros allowed). -/
def digitsVal (ds : List Char) : Nat :=
  ds.foldl (fun a c => 10 * a + (c.toNat - 48)) 0

/-- `re.match(r"patch-(\d+)\.sql", name)`: the name must start with
`patch-`, then a maximal nonempty digit run, then `.sql`; anything may
follow (the regex is not end-anchored).  Returns the parsed version. -/
def rePatchVersion (name : String) : Option Nat :=
  let cs := name.data
  if cs.take 6 == "patch-".data then
    let rest := cs.drop 6
    let ds := rest.takeWhile (·.isDigit)
    if ds.isEmpty then none
    else if (rest.drop ds.length).take 4 == ".sql".data then some (digitsVal ds)
    else none
  else none

/-- `patches_dir.glob("patch-*.sql")` applied to one file name: starts
with `patch-`, ends with `.sql`, with anything (possibly empty) between. -/
def globPatchSql (name : String) : Bool :=
  let cs := name.data
  cs.take 6 == "patch-".data && decide (10 ≤ cs.length) &&
    cs.drop (cs.length - 4) == ".sql".data

/-- The naming convention as the spec words it: the name is exactly
`patch-<N>.sql` for a (nonempty) digit string `<N>`. -/
def strictPatchName (name : String) : Bool :=
  let cs := name.data
  cs.take 6 == "patch-".data &&
    (let rest := cs.drop 6
     let ds := rest.takeWhile (·.isDigit)
     !ds.isEmpty && rest.drop ds.length == ".sql".data)

/-- The `patches` list built by the discovery loop: `(version, name, body)`
for every file passing both the glob and the regex. -/
def discoverPatches (files : List (String × String)) : List (Nat × String × String) :=
  files.filterMap fun f =>
    if globPatchSql f.1 then
      match rePatchVersion f.1 with
      | some v => some (v, f.1, f.2)
      | none => none
    else none

/-- The order used by `sorted(patches)`: lexicographic on the
`(version, path)` tuple. -/
def patchLe (a b : Nat × String × String) : Bool :=
  decide (a.1 < b.1) || (a.1 == b.1 && decide (a.2.1 ≤ b.2.1))

/-- Stable insertion into a sorted list. -/
def insertLe {α : Type} (le : α → α → Bool) (x : α) : List α → List α
  | [] => [x]
  | y :: ys => if le x y then x :: y :: ys else y :: insertLe le x ys

/-- Stable sort (insertion sort), the embedding of Python `sorted`. -/
def sortLe {α : Type} (le : α → α → Bool) (l : List α) : List α :=
  l.foldr (insertLe le) []

theorem insertLe_perm {α : Type} (le : α → α → Bool) (x : α) (l : List α) :
    List.Perm (insertLe le x l) (x :: l) := by
  induction l with
  | nil => rfl
  | cons y ys ih =>
    simp only [insertLe]
    split
    · rfl
    · exact (ih.cons y).trans (List.Perm.swap x y ys)

theorem sortLe_perm {α : Type} (le : α → α → Bool) (l : List α) :
    List.Perm (sortLe le l) l := by
  induction l with
  | nil => rfl
  | cons x xs ih =>
    simpa only [sortLe, List.foldr] using (insertLe_perm le x _).trans (ih.cons x)

theorem insertLe_pairwise {α : Type} (le : α → α → Bool) (R : α → α → Prop)
    (h1 : ∀ a b, le a b = true → R a b) (h2 : ∀ a b, le a b = false → R b a)
    (htr : ∀ a b c, R a b → R b c → R a c)
    (x : α) (l : List α) (hl : List.Pairwise R l) :
    List.Pairwise R (insertLe le x l) := by
  induction l with
  | nil => simp [insertLe]
  | cons y ys ih =>
    rcases List.pairwise_cons.mp hl with ⟨hy, hys⟩
    simp only [insertLe]
    split
    · rename_i hxy
      refine List.pairwise_cons.mpr ⟨?_, hl⟩
      intro z hz
      rcases List.mem_cons.mp hz with rfl | hz'
      · exact h1 _ _ hxy
      · exact htr _ _ _ (h1 _ _ hxy) (hy z hz')
    · rename_i hxy
      refine List.pairwise_cons.mpr ⟨?_, ih hys⟩
      intro z hz
      have hz' := (insertLe_perm le x ys).mem_iff.mp hz
      rcases List.mem_cons.mp hz' with rfl | hz''
      · exact h2 _ _ (Bool.eq_false_iff.mpr hxy)
      · exact hy z hz''

theorem sortLe_pairwise {α : Type} (le : α → α → Bool) (R : α → α → Prop)
    (h1 : ∀ a b, le a b = true → R a b) (h2 : ∀ a b, le a b = false → R b a)
    (htr : ∀ a b c, R a b → R b c → R a c) (l : List α) :
    List.Pairwise R (sortLe le l) := by
  induction l with
  | nil => simp [sortLe]
  | cons x xs ih =>
    simpa only [sortLe, List.foldr] using insertLe_pairwise le R h1 h2 htr x _ ih

theorem sortLe_patchLe_version_pairwise (l : List (Nat × String × String)) :
    List.Pairwise (fun a b => a.1 ≤ b.1) (sortLe patchLe l) := by
  refine sortLe_pairwise patchLe _ ?_ ?_ ?_ l
  · intro a b h
    simp only [patchLe, Bool.or_eq_true, Bool.and_eq_true, decide_eq_true_eq, beq_iff_eq] at h
    rcases h with h | ⟨h, _⟩
    · exact Nat.le_of_lt h
    · exact Nat.le_of_eq h
  · intro a b h
    simp only [patchLe, Bool.or_eq_false_iff, Bool.and_eq_false_iff, decide_eq_false_iff_not,
      beq_eq_false_iff_ne, ne_eq] at h
    omega
  · intro a b c h1 h2
    exact Nat.le_trans h1 h2

/-! ## The patch applier itself -/

/-- Connection state: the file content it addresses plus the
connection-scoped `PRAGMA foreign_keys` flag (off on a fresh connection,
which is sqlite's default). -/
structure Conn (δ : Type) where
  db : δ
  fk : Bool
deriving DecidableEq

/-- One top-level call on the connection inside the apply loop.  With
`isolation_level=None` every call is its own autocommit transaction, so a
crash can leave exactly a prefix of the statement list committed. -/
inductive Stmt : Type
  | pragmaFkOff
  | script (body : String)
  | pragmaFkOn
  | setVersion (version : Nat)
deriving DecidableEq, Repr

/-- Crash semantics of the autocommit connection: after interrupting the
run once `n` statements executed, exactly `tr.take n` is committed. -/
def committedUpTo (tr : List Stmt) (n : Nat) : List Stmt := tr.take n

/-- Abstract semantics of the effectful primitives the module calls:
`conn.executescript` (which on failure leaves its partial effects behind),
the `INSERT OR REPLACE INTO schema_version …` statement (whose
`datetime.now()` timestamp argument is absorbed into the semantics),
`table_row_counts`, `sha256_file`, and the two `shutil.copy2` copies
(backup slot and trial scratch file), each of which yields whatever the
filesystem actually wrote. -/
structure SqlModel (δ : Type) where
  runScript : String → δ → Except (String × δ) δ
  recordVersion : Nat → δ → Except (String × δ) δ
  rowCounts : δ → List (String × Nat)
  hash : δ → String
  copyBackup : δ → δ
  copyTmp : δ → δ

/-- The loop body of `_apply_patches_to` over the sorted patch list.
Mirrors lines 116-132: skip if `version <= current_version` (the tracker,
which advances), skip if `version > latest_version`; otherwise
`PRAGMA foreign_keys = OFF`, run the script, `PRAGMA foreign_keys = ON`,
record the schema version, advance the tracker.  A SQL error propagates
immediately (no `finally`), carrying the connection state at that point.
Also returns the trace of executed statements. -/
def applyLoop {δ : Type} (S : SqlModel δ) (latest : Nat) :
    Conn δ → Nat → List (Nat × String × String) →
      Except (String × Conn δ) (Nat × Conn δ) × List Stmt
  | conn, cur, [] => (.ok (cur, conn), [])
  | conn, cur, (v, _, body) :: rest =>
    if v ≤ cur then applyLoop S latest conn cur rest
    else if latest < v then applyLoop S latest conn cur rest
    else
      match S.runScript body conn.db with
      | .error (e, d) => (.error (e, ⟨d, false⟩), [Stmt.pragmaFkOff])
      | .ok d1 =>
        match S.recordVersion v d1 with
        | .error (e, d) =>
          (.error (e, ⟨d, true⟩), [Stmt.pragmaFkOff, Stmt.script body, Stmt.pragmaFkOn])
        | .ok d2 =>
          let r := applyLoop S latest ⟨d2, true⟩ v rest
          (r.1, Stmt.pragmaFkOff :: Stmt.script body :: Stmt.pragmaFkOn ::
            Stmt.setVersion v :: r.2)

/-- `_apply_patches_to(conn, current_version, latest_version, patches_dir)`:
discover, sort by `(version, path)`, then run the loop. -/
def applyPatchesTo {δ : Type} (S : SqlModel δ) (conn : Conn δ) (cur latest : Nat)
    (files : List (String × String)) :
    Except (String × Conn δ) (Nat × Conn δ) × List Stmt :=
  applyLoop S latest conn cur (sortLe patchLe (discoverPatches files))

/-- The schema versions recorded along a trace, in execution order. -/
def setVers (tr : List Stmt) : List Nat :=
  tr.filterMap fun s => match s with | .setVersion v => some v | _ => none

/-- The per-patch statement pattern the loop emits on success: for each
applied `(version, body)`, `PRAGMA OFF`, the script, `PRAGMA ON`, and the
separate schema-version update. -/
def blockStmts : List (Nat × String) → List Stmt
  | [] => []
  | (v, b) :: ps =>
    .pragmaFkOff :: .script b :: .pragmaFkOn :: .setVersion v :: blockStmts ps

theorem setVers_block_cons (v : Nat) (b : String) (tr : List Stmt) :
    setVers (.pragmaFkOff :: .script b :: .pragmaFkOn :: .setVersion v :: tr) =
      v :: setVers tr := by
  simp [setVers]

theorem getLast_four_cons (x1 x2 x3 x4 : Stmt) (l : List Stmt) (hl : l ≠ []) :
    (x1 :: x2 :: x3 :: x4 :: l).getLast? = l.getLast? := by
  cases l with
  | nil => exact absurd rfl hl
  | cons z zs => simp [List.getLast?_cons_cons]

/-- Full characterization of a successful run of the apply loop over a
version-sorted patch list: the set of recorded versions is exactly the
eligible versions present in the list, they are recorded in strictly
increasing order, the returned version is the last recorded one (or the
incoming `cur`), and the trace decomposes into per-patch blocks whose
bodies come from the list. -/
theorem applyLoop_ok {δ : Type} (S : SqlModel δ) (latest : Nat) :
    ∀ (L : List (Nat × String × String)) (conn : Conn δ) (cur vf : Nat)
      (c' : Conn δ) (tr : List Stmt),
      List.Pairwise (fun a b => a.1 ≤ b.1) L →
      applyLoop S latest conn cur L = (.ok (vf, c'), tr) →
      (∀ u, u ∈ setVers tr ↔ ∃ e ∈ L, e.1 = u ∧ cur < u ∧ u ≤ latest) ∧
      List.Pairwise (· < ·) (setVers tr) ∧
      vf = (setVers tr).getLastD cur ∧
      ∃ ps : List (Nat × String), tr = blockStmts ps ∧
        ps.map Prod.fst = setVers tr ∧
        ∀ p ∈ ps, ∃ nm, (p.1, nm, p.2) ∈ L := by
  intro L
  induction L with
  | nil =>
    intro conn cur vf c' tr _ h
    simp only [applyLoop, Prod.mk.injEq, Except.ok.injEq] at h
    obtain ⟨⟨rfl, rfl⟩, rfl⟩ := h
    refine ⟨?_, ?_, rfl, [], rfl, rfl, ?_⟩ <;> simp [setVers, blockStmts]
  | cons head rest ih =>
    obtain ⟨v, nm, body⟩ := head
    intro conn cur vf c' tr hsorted h
    obtain ⟨hhead, htail⟩ := List.pairwise_cons.mp hsorted
    simp only [applyLoop] at h
    by_cases hle : v ≤ cur
    · rw [if_pos hle] at h
      obtain ⟨ha, hb, hc, ps, hps1, hps2, hps3⟩ := ih conn cur vf c' tr htail h
      refine ⟨?_, hb, hc, ps, hps1, hps2, ?_⟩
      · intro u
        rw [ha u]
        constructor
        · rintro ⟨e, he, h1, h2, h3⟩
          exact ⟨e, List.mem_cons_of_mem _ he, h1, h2, h3⟩
        · rintro ⟨e, he, h1, h2, h3⟩
          rcases List.mem_cons.mp he with rfl | he'
          · obtain rfl : v = u := h1
            omega
          · exact ⟨e, he', h1, h2, h3⟩
      · intro p hp
        obtain ⟨nm', hmem⟩ := hps3 p hp
        exact ⟨nm', List.mem_cons_of_mem _ hmem⟩
    · rw [if_neg hle] at h
      by_cases hgt : latest < v
      · rw [if_pos hgt] at h
        obtain ⟨ha, hb, hc, ps, hps1, hps2, hps3⟩ := ih conn cur vf c' tr htail h
        refine ⟨?_, hb, hc, ps, hps1, hps2, ?_⟩
        · intro u
          rw [ha u]
          constructor
          · rintro ⟨e, he, h1, h2, h3⟩
            exact ⟨e, List.mem_cons_of_mem _ he, h1, h2, h3⟩
          · rintro ⟨e, he, h1, h2, h3⟩
            rcases List.mem_cons.mp he with rfl | he'
            · obtain rfl : v = u := h1
              omega
            · exact ⟨e, he', h1, h2, h3⟩
        · intro p hp
          obtain ⟨nm', hmem⟩ := hps3 p hp
          exact ⟨nm', List.mem_cons_of_mem _ hmem⟩
      · rw [if_neg hgt] at h
        cases hrun : S.runScript body conn.db with
        | error p =>
          obtain ⟨e0, d0⟩ := p
          rw [hrun] at h
          exact absurd h (by simp)
        | ok d1 =>
          rw [hrun] at h
          dsimp only at h
          cases hrec : S.recordVersion v d1 with
          | error p =>
            obtain ⟨e0, d0⟩ := p
            rw [hrec] at h
            exact absurd h (by simp)
          | ok d2 =>
            rw [hrec] at h
            dsimp only at h
            rw [Prod.mk.injEq] at h
            obtain ⟨h1, h2⟩ := h
            have hrr : applyLoop S latest ⟨d2, true⟩ v rest =
                (.ok (vf, c'), (applyLoop S latest ⟨d2, true⟩ v rest).2) := by
              rw [← h1]
            obtain ⟨ha, hb, hc, ps, hps1, hps2, hps3⟩ := ih _ v vf c' _ htail hrr
            subst h2
            rw [setVers_block_cons]
            have hcv : cur < v := by omega
            have hvl : v ≤ latest := by omega
            refine ⟨?_, ?_, ?_, (v, body) :: ps, ?_, ?_, ?_⟩
            · intro u
              rw [List.mem_cons, ha u]
              constructor
              · rintro (heq | ⟨e, he, h1', h2', h3'⟩)
                · exact ⟨(v, nm, body), List.mem_cons_self _ _, heq.symm, by omega, by omega⟩
                · exact ⟨e, List.mem_cons_of_mem _ he, h1', by omega, h3'⟩
              · rintro ⟨e, he, h1', h2', h3'⟩
                rcases List.mem_cons.mp he with rfl | he'
                · exact Or.inl h1'.symm
                · have hve : v ≤ e.1 := hhead e he'
                  rcases Nat.eq_or_lt_of_le hve with heq | hlt
                  · exact Or.inl (by omega)
                  · exact Or.inr ⟨e, he', h1', by omega, h3'⟩
            · refine List.pairwise_cons.mpr ⟨?_, hb⟩
              intro u hu
              obtain ⟨e, _, _, hvu, _⟩ := (ha u).mp hu
              exact hvu
            · rw [List.getLastD_cons]
              exact hc
            · simp only [blockStmts]
              rw [hps1]
            · simp only [List.map_cons]
              rw [hps2]
            · intro p hp
              rcases List.mem_cons.mp hp with rfl | hp'
              · exact ⟨nm, List.mem_cons_self _ _⟩
              · obtain ⟨nm', hmem⟩ := hps3 p hp'
                exact ⟨nm', List.mem_cons_of_mem _ hmem⟩

/-- On a propagated SQL error the loop's trace is nonempty, and the
connection's foreign-key flag is off exactly when the failing statement
was a patch script (the last committed statement is the `PRAGMA
foreign_keys = OFF` that preceded it). -/
theorem applyLoop_error_fk {δ : Type} (S : SqlModel δ) (latest : Nat) :
    ∀ (L : List (Nat × String × String)) (conn : Conn δ) (cur : Nat)
      (e : String) (c' : Conn δ) (tr : List Stmt),
      applyLoop S latest conn cur L = (.error (e, c'), tr) →
      tr ≠ [] ∧ (c'.fk = false ↔ tr.getLast? = some Stmt.pragmaFkOff) := by
  intro L
  induction L with
  | nil =>
    intro conn cur e c' tr h
    exact absurd h (by simp [applyLoop])
  | cons head rest ih =>
    obtain ⟨v, nm, body⟩ := head
    intro conn cur e c' tr h
    simp only [applyLoop] at h
    by_cases hle : v ≤ cur
    · rw [if_pos hle] at h
      exact ih conn cur e c' tr h
    · rw [if_neg hle] at h
      by_cases hgt : latest < v
      · rw [if_pos hgt] at h
        exact ih conn cur e c' tr h
      · rw [if_neg hgt] at h
        cases hrun : S.runScript body conn.db with
        | error p =>
          obtain ⟨e0, d0⟩ := p
          rw [hrun] at h
          dsimp only at h
          simp only [Prod.mk.injEq, Except.error.injEq] at h
          obtain ⟨⟨rfl, rfl⟩, rfl⟩ := h
          exact ⟨by simp, by simp⟩
        | ok d1 =>
          rw [hrun] at h
          dsimp only at h
          cases hrec : S.recordVersion v d1 with
          | error p =>
            obtain ⟨e0, d0⟩ := p
            rw [hrec] at h
            dsimp only at h
            simp only [Prod.mk.injEq, Except.error.injEq] at h
            obtain ⟨⟨rfl, rfl⟩, rfl⟩ := h
            exact ⟨by simp, by simp⟩
          | ok d2 =>
            rw [hrec] at h
            dsimp only at h
            rw [Prod.mk.injEq] at h
            obtain ⟨h1, h2⟩ := h
            have hrr : applyLoop S latest ⟨d2, true⟩ v rest =
                (.error (e, c'), (applyLoop S latest ⟨d2, true⟩ v rest).2) := by
              rw [← h1]
            obtain ⟨hne, hiff⟩ := ih _ v e c' _ hrr
            subst h2
            refine ⟨by simp, ?_⟩
            rw [getLast_four_cons _ _ _ _ _ hne]
            exact hiff

/-- On a successful run the connection's foreign-key flag ends up on
whenever at least one patch was applied (trace nonempty), and is simply
untouched otherwise. -/
theorem applyLoop_ok_fk {δ : Type} (S : SqlModel δ) (latest : Nat) :
    ∀ (L : List (Nat × String × String)) (conn : Conn δ) (cur vf : Nat)
      (c' : Conn δ) (tr : List Stmt),
      applyLoop S latest conn cur L = (.ok (vf, c'), tr) →
      c'.fk = (if tr = [] then conn.fk else true) := by
  intro L
  induction L with
  | nil =>
    intro conn cur vf c' tr h
    simp only [applyLoop, Prod.mk.injEq, Except.ok.injEq] at h
    obtain ⟨⟨rfl, rfl⟩, rfl⟩ := h
    simp
  | cons head rest ih =>
    obtain ⟨v, nm, body⟩ := head
    intro conn cur vf c' tr h
    simp only [applyLoop] at h
    by_cases hle : v ≤ cur
    · rw [if_pos hle] at h
      exact ih conn cur vf c' tr h
    · rw [if_neg hle] at h
      by_cases hgt : latest < v
      · rw [if_pos hgt] at h
        exact ih conn cur vf c' tr h
      · rw [if_neg hgt] at h
        cases hrun : S.runScript body conn.db with
        | error p =>
          obtain ⟨e0, d0⟩ := p
          rw [hrun] at h
          exact absurd h (by simp)
        | ok d1 =>
          rw [hrun] at h
          dsimp only at h
          cases hrec : S.recordVersion v d1 with
          | error p =>
            obtain ⟨e0, d0⟩ := p
            rw [hrec] at h
            exact absurd h (by simp)
          | ok d2 =>
            rw [hrec] at h
            dsimp only at h
            rw [Prod.mk.injEq] at h
            obtain ⟨h1, h2⟩ := h
            have hrr : applyLoop S latest ⟨d2, true⟩ v rest =
                (.ok (vf, c'), (applyLoop S latest ⟨d2, true⟩ v rest).2) := by
              rw [← h1]
            have hfk := ih _ v vf c' _ hrr
            subst h2
            simp only [if_neg (List.cons_ne_nil _ _)]
            split at hfk <;> simpa using hfk

/-! ## Filesystem world, verified backup (`create_verified_backup`) -/

/-- The filesystem state the module manipulates: the live database file
(`none` when `db_path` does not exist), the contents of the sibling
`.backups` directory as `(file name, file content)` pairs, whether
`patches_dir` exists, and its files as `(file name, script text)` pairs. -/
structure World (δ : Type) where
  live : Option δ
  backups : List (String × δ)
  patchesDirExists : Bool
  patchFiles : List (String × String)
deriving DecidableEq

/-- `n` occurs as a substring of `h`. -/
def strContains (h n : String) : Prop := ∃ a b : String, h = a ++ (n ++ b)

/-- The slot search of `create_verified_backup`: the first letter of
`string.ascii_lowercase` whose candidate name `base ++ letter` is not
already taken. -/
def freeSlot (base : String) (existing : List String) : Option String :=
  ("abcdefghijklmnopqrstuvwxyz".data.map (fun c => base ++ String.singleton c)).find?
    (fun cand => !(existing.contains cand))

/-- `create_verified_backup(db_path)` (lines 55-95): missing-file check,
slot search, checksum of the live file, copy, checksum of the copy; on
mismatch the copy is unlinked and a checksum-mismatch error is raised, on
match the backup name is returned.  The result is paired with the
filesystem state when control returns. -/
def create_verified_backup {δ : Type} (S : SqlModel δ) (dbName date : String)
    (w : World δ) : Except String String × World δ :=
  match w.live with
  | none => (.error ("Database file does not exist: " ++ dbName), w)
  | some l =>
    match freeSlot (dbName ++ "." ++ date) (w.backups.map Prod.fst) with
    | none => (.error ("Exhausted backup slots for " ++ ((dbName ++ "." ++ date) ++ "[a-z]")), w)
    | some cand =>
      if S.hash (S.copyBackup l) ≠ S.hash l then
        (.error ("Backup checksum mismatch!  live=" ++ S.hash l ++
            "  backup=" ++ S.hash (S.copyBackup l)),
          { w with backups :=
              (w.backups ++ [(cand, S.copyBackup l)]).filter (fun p => p.1 != cand) })
      else
        (.ok cand, { w with backups := w.backups ++ [(cand, S.copyBackup l)] })

/-! ## The `safe_migrate` orchestrator -/

/-- Observable protocol events of one `safe_migrate` run, used to state
the ordering guarantees.  Snapshot and validation events carry the
row-count data involved; `patchTrial` / `patchLive` mark the start of
patch application against the trial copy / the live file. -/
inductive Ev : Type
  | backupVerified (backupPath : String)
  | snapshot (counts : List (String × Nat))
  | patchTrial
  | validateTrial (base : List (String × Nat)) (errs : List String)
  | patchLive
  | validateLive (base : List (String × Nat)) (errs : List String)
deriving DecidableEq, Repr

/-- Event kinds, separating passed from failed validations. -/
inductive EvKind : Type
  | backupVerified
  | snapshot
  | patchTrial
  | valTrialPass
  | valTrialFail
  | patchLive
  | valLivePass
  | valLiveFail
deriving DecidableEq, Repr

def evKind : Ev → EvKind
  | .backupVerified _ => .backupVerified
  | .snapshot _ => .snapshot
  | .patchTrial => .patchTrial
  | .validateTrial _ errs => if errs.isEmpty then .valTrialPass else .valTrialFail
  | .patchLive => .patchLive
  | .validateLive _ errs => if errs.isEmpty then .valLivePass else .valLiveFail

/-- Every occurrence of kind `b` in the trace is strictly preceded by an
occurrence of kind `a`. -/
abbrev eachPreceded (tr : List EvKind) (a b : EvKind) : Prop :=
  ∀ i : Fin tr.length, tr.get i = b → ∃ j : Fin tr.length, j.val < i.val ∧ tr.get j = a

/-- Outcome of one `safe_migrate` call: the returned backup path, a raised
`MigrationAborted`, a raised `RuntimeError`, or an uncaught
`sqlite3.Error` escaping the function. -/
inductive MigrateResult : Type
  | success (backupPath : String)
  | migrationAborted (msg : String)
  | runtimeError (msg : String)
  | sqlError (msg : String)
deriving DecidableEq, Repr

/-- A finished `safe_migrate` run: outcome, final filesystem state, and
the protocol events in execution order. -/
structure MRun (δ : Type) where
  result : MigrateResult
  world : World δ
  events : List Ev
deriving DecidableEq

/-- `"; ".join(errors)`. -/
def joinSemicolon : List String → String
  | [] => ""
  | [x] => x
  | x :: xs => x ++ "; " ++ joinSemicolon xs

def notTouchedSuffix (backupPath : String) : String :=
  ". Live database NOT touched.  Backup at: " ++ backupPath

/-- Message of the trial-phase SQL-error abort (lines 220-223). -/
def trialSqlMsg (err backupPath : String) : String :=
  "Trial migration FAILED — SQL error on copy: " ++ err ++ notTouchedSuffix backupPath

/-- Message of the trial-phase validation abort (lines 233-236). -/
def trialLossMsg (detail backupPath : String) : String :=
  "Trial migration FAILED — data loss detected on copy: " ++ detail ++
    notTouchedSuffix backupPath

/-- Message of the post-live validation abort (lines 259-262). -/
def liveLossMsg (detail backupPath : String) : String :=
  "Live migration FAILED validation — data loss detected: " ++ detail ++
    ". Backup available at: " ++ backupPath

/-- `safe_migrate(db_path, current_version, latest_version, patches_dir)`
(lines 164-264), step by step: early exit when already at (or past) the
target, infrastructure checks, verified backup, live row-count snapshot,
trial copy, trial patch run (SQL errors caught and converted to a
`MigrationAborted` naming the backup), trial validation, live patch run
(SQL errors NOT caught — they escape as `sqlError`), live validation. -/
def safe_migrate {δ : Type} (S : SqlModel δ) (dbName pdName date : String)
    (cur latest : Nat) (w : World δ) : MRun δ :=
  if latest ≤ cur then
    ⟨.migrationAborted "No migration needed — already at latest version", w, []⟩
  else
    match w.live with
    | none => ⟨.runtimeError ("Database does not exist: " ++ dbName), w, []⟩
    | some live =>
      if w.patchesDirExists then
        match create_verified_backup S dbName date w with
        | (.error e, w1) => ⟨.runtimeError e, w1, []⟩
        | (.ok backupPath, w1) =>
          match applyPatchesTo S ⟨S.copyTmp live, false⟩ cur latest w.patchFiles with
          | (.error (e, _), _) =>
            ⟨.migrationAborted (trialSqlMsg e backupPath), w1,
              [.backupVerified backupPath, .snapshot (S.rowCounts live), .patchTrial]⟩
          | (.ok (_, tconn), _) =>
            if (validate_row_counts (S.rowCounts live) (S.rowCounts tconn.db)).isEmpty then
              match applyPatchesTo S ⟨live, false⟩ cur latest w.patchFiles with
              | (.error (e, lconn), _) =>
                ⟨.sqlError e, { w1 with live := some lconn.db },
                  [.backupVerified backupPath, .snapshot (S.rowCounts live), .patchTrial,
                   .validateTrial (S.rowCounts live)
                     (validate_row_counts (S.rowCounts live) (S.rowCounts tconn.db)),
                   .patchLive]⟩
              | (.ok (_, lconn), _) =>
                if (validate_row_counts (S.rowCounts live) (S.rowCounts lconn.db)).isEmpty then
                  ⟨.success backupPath, { w1 with live := some lconn.db },
                    [.backupVerified backupPath, .snapshot (S.rowCounts live), .patchTrial,
                     .validateTrial (S.rowCounts live)
                       (validate_row_counts (S.rowCounts live) (S.rowCounts tconn.db)),
                     .patchLive,
                     .validateLive (S.rowCounts live)
                       (validate_row_counts (S.rowCounts live) (S.rowCounts lconn.db))]⟩
                else
                  ⟨.migrationAborted (liveLossMsg
                      (joinSemicolon (validate_row_counts (S.rowCounts live)
                        (S.rowCounts lconn.db))) backupPath),
                    { w1 with live := some lconn.db },
                    [.backupVerified backupPath, .snapshot (S.rowCounts live), .patchTrial,
                     .validateTrial (S.rowCounts live)
                       (validate_row_counts (S.rowCounts live) (S.rowCounts tconn.db)),
                     .patchLive,
                     .validateLive (S.rowCounts live)
                       (validate_row_counts (S.rowCounts live) (S.rowCounts lconn.db))]⟩
            else
              ⟨.migrationAborted (trialLossMsg
                  (joinSemicolon (validate_row_counts (S.rowCounts live)
                    (S.rowCounts tconn.db))) backupPath),
                w1,
                [.backupVerified backupPath, .snapshot (S.rowCounts live), .patchTrial,
                 .validateTrial (S.rowCounts live)
                   (validate_row_counts (S.rowCounts live) (S.rowCounts tconn.db))]⟩
      else ⟨.runtimeError ("Patches directory does not exist: " ++ pdName), w, []⟩

/-! ## Message and backup helper lemmas -/

theorem trialSqlMsg_contains_notTouched (e bp : String) :
    strContains (trialSqlMsg e bp) "Live database NOT touched" := by
  refine ⟨"Trial migration FAILED — SQL error on copy: " ++ e ++ ". ",
    ".  Backup at: " ++ bp, ?_⟩
  have hsplit : (". Live database NOT touched.  Backup at: " : String)
      = ". " ++ "Live database NOT touched" ++ ".  Backup at: " := rfl
  simp only [trialSqlMsg, notTouchedSuffix, hsplit, String.append_assoc]

theorem trialSqlMsg_contains_backup (e bp : String) :
    strContains (trialSqlMsg e bp) bp := by
  refine ⟨"Trial migration FAILED — SQL error on copy: " ++ e ++
    ". Live database NOT touched.  Backup at: ", "", ?_⟩
  simp only [trialSqlMsg, notTouchedSuffix, String.append_assoc, String.append_empty]

theorem trialLossMsg_contains_notTouched (d bp : String) :
    strContains (trialLossMsg d bp) "Live database NOT touched" := by
  refine ⟨"Trial migration FAILED — data loss detected on copy: " ++ d ++ ". ",
    ".  Backup at: " ++ bp, ?_⟩
  have hsplit : (". Live database NOT touched.  Backup at: " : String)
      = ". " ++ "Live database NOT touched" ++ ".  Backup at: " := rfl
  simp only [trialLossMsg, notTouchedSuffix, hsplit, String.append_assoc]

theorem trialLossMsg_contains_backup (d bp : String) :
    strContains (trialLossMsg d bp) bp := by
  refine ⟨"Trial migration FAILED — data loss detected on copy: " ++ d ++
    ". Live database NOT touched.  Backup at: ", "", ?_⟩
  simp only [trialLossMsg, notTouchedSuffix, String.append_assoc, String.append_empty]

theorem cvb_live {δ : Type} (S : SqlModel δ) (dbName date : String) (w : World δ) :
    (create_verified_backup S dbName date w).2.live = w.live := by
  unfold create_verified_backup
  split
  · rfl
  · split
    · rfl
    · split
      · rfl
      · rfl

theorem freeSlot_not_mem {base : String} {existing : List String} {cand : String}
    (h : freeSlot base existing = some cand) : cand ∉ existing := by
  unfold freeSlot at h
  have h2 := List.find?_some h
  simp only [Bool.not_eq_true'] at h2
  intro hmem
  rw [List.contains_eq_any_beq] at h2
  have : existing.any (cand == ·) = true := List.any_eq_true.mpr ⟨cand, hmem, by simp⟩
  rw [this] at h2
  cases h2

theorem filter_append_fresh {δ : Type} (bs : List (String × δ)) (cand : String) (c : δ)
    (h : cand ∉ bs.map Prod.fst) :
    (bs ++ [(cand, c)]).filter (fun p => p.1 != cand) = bs := by
  rw [List.filter_append]
  have h1 : bs.filter (fun p => p.1 != cand) = bs := by
    apply List.filter_eq_self.mpr
    intro p hp
    simp only [bne_iff_ne, ne_eq]
    intro heq
    exact h (List.mem_map.mpr ⟨p, hp, heq⟩)
  have h2 : ([(cand, c)] : List (String × δ)).filter (fun p => p.1 != cand) = [] := by
    simp
  rw [h1, h2, List.append_nil]

/-! ## Claim C3 -/

/-- C3: `create_verified_backup` digests the live file, copies it into the
first free slot, digests the copy, and returns the backup path only when
the two digests agree — in which case the verified copy of the live file
sits at a fresh slot and `checksum(db_path) = checksum(backup_path)`.
When the digests differ, the copy is deleted and a checksum-mismatch
error carrying both digests is raised, leaving the filesystem exactly as
before the call: no unverified artifact remains on disk. -/
theorem create_verified_backup_checksum_gate {δ : Type} (S : SqlModel δ)
    (dbName date : String) (w : World δ) :
    (∀ bp w', create_verified_backup S dbName date w = (.ok bp, w') →
      ∃ l, w.live = some l ∧
        S.hash (S.copyBackup l) = S.hash l ∧
        w'.backups = w.backups ++ [(bp, S.copyBackup l)] ∧
        w'.live = w.live ∧
        bp ∉ w.backups.map Prod.fst) ∧
    (∀ l, w.live = some l →
      ∀ cand, freeSlot (dbName ++ "." ++ date) (w.backups.map Prod.fst) = some cand →
        S.hash (S.copyBackup l) ≠ S.hash l →
        ∃ m, create_verified_backup S dbName date w = (.error m, w) ∧
          strContains m (S.hash l) ∧ strContains m (S.hash (S.copyBackup l))) := by
  constructor
  · intro bp w' h
    unfold create_verified_backup at h
    cases hl : w.live with
    | none => rw [hl] at h; exact absurd h (by simp)
    | some l =>
      rw [hl] at h
      dsimp only at h
      cases hfs : freeSlot (dbName ++ "." ++ date) (w.backups.map Prod.fst) with
      | none => rw [hfs] at h; exact absurd h (by simp)
      | some cand =>
        rw [hfs] at h
        dsimp only at h
        by_cases hne : S.hash (S.copyBackup l) ≠ S.hash l
        · rw [if_pos hne] at h
          exact absurd h (by simp)
        · rw [if_neg hne] at h
          simp only [Prod.mk.injEq, Except.ok.injEq] at h
          obtain ⟨rfl, rfl⟩ := h
          exact ⟨l, rfl, not_not.mp hne, rfl, rfl, freeSlot_not_mem hfs⟩
  · intro l hl cand hfs hne
    refine ⟨"Backup checksum mismatch!  live=" ++ S.hash l ++
      "  backup=" ++ S.hash (S.copyBackup l), ?_, ?_, ?_⟩
    · unfold create_verified_backup
      rw [hl]
      dsimp only
      rw [hfs]
      dsimp only
      rw [if_pos hne, filter_append_fresh _ _ _ (freeSlot_not_mem hfs), ← hl]
    · exact ⟨"Backup checksum mismatch!  live=",
        "  backup=" ++ S.hash (S.copyBackup l), by
          simp only [String.append_assoc]⟩
    · exact ⟨"Backup checksum mismatch!  live=" ++ S.hash l ++ "  backup=", "", by
        simp only [String.append_assoc, String.append_empty]⟩

def c3Model : SqlModel Nat :=
  ⟨fun _ d => .ok d, fun _ d => .ok d, fun _ => [], fun n => toString n,
   fun _ => 1, id⟩

def c3World : World Nat := ⟨some 0, [], true, []⟩

theorem create_verified_backup_checksum_gate_witness :
    ∃ m, create_verified_backup c3Model "db" "250101" c3World = (.error m, c3World) ∧
      strContains m (c3Model.hash 0) ∧ strContains m (c3Model.hash (c3Model.copyBackup 0)) :=
  (create_verified_backup_checksum_gate c3Model "db" "250101" c3World).2 0 rfl
    "db.250101a" (by decide) (by decide)

/-! ## Claim C1 -/

/-- C1: once the trial phase is reached (preconditions passed, backup
verified) and it fails — either the patch run on the scratch copy raised
a SQL error, or the trial row-count validation returned a non-empty error
list — `safe_migrate` raises a `MigrationAborted` whose message states
that the live database was not touched and includes the backup path, and
the live database file's content is unchanged by the call. -/
theorem safe_migrate_trial_failure_aborts {δ : Type} (S : SqlModel δ)
    (dbName pdName date : String) (cur latest : Nat) (w : World δ)
    (live : δ) (bp : String) (w1 : World δ)
    (hcl : ¬ latest ≤ cur)
    (hlive : w.live = some live)
    (hdir : w.patchesDirExists = true)
    (hbk : create_verified_backup S dbName date w = (.ok bp, w1))
    (hfail :
      (∃ e c tr, applyPatchesTo S ⟨S.copyTmp live, false⟩ cur latest w.patchFiles =
        (.error (e, c), tr)) ∨
      (∃ vf tc tr, applyPatchesTo S ⟨S.copyTmp live, false⟩ cur latest w.patchFiles =
        (.ok (vf, tc), tr) ∧
        validate_row_counts (S.rowCounts live) (S.rowCounts tc.db) ≠ [])) :
    ∃ m, (safe_migrate S dbName pdName date cur latest w).result = .migrationAborted m ∧
      strContains m "Live database NOT touched" ∧
      strContains m bp ∧
      (safe_migrate S dbName pdName date cur latest w).world.live = w.live := by
  have hw1 : w1.live = w.live := by
    have h2 := cvb_live S dbName date w
    rw [hbk] at h2
    exact h2
  rcases hfail with ⟨e, c, tr, heq⟩ | ⟨vf, tc, tr, heq, hne⟩
  · refine ⟨trialSqlMsg e bp, ?_, trialSqlMsg_contains_notTouched e bp,
      trialSqlMsg_contains_backup e bp, ?_⟩
    · simp only [safe_migrate, if_neg hcl, hlive, hdir, if_true, hbk, heq]
    · simp only [safe_migrate, if_neg hcl, hlive, hdir, if_true, hbk, heq]
      rw [hw1]
      exact hlive
  · have hemp : ¬ ((validate_row_counts (S.rowCounts live) (S.rowCounts tc.db)).isEmpty
        = true) := by
      intro hh
      exact hne (List.isEmpty_iff.mp hh)
    refine ⟨trialLossMsg (joinSemicolon
        (validate_row_counts (S.rowCounts live) (S.rowCounts tc.db))) bp, ?_,
      trialLossMsg_contains_notTouched _ bp, trialLossMsg_contains_backup _ bp, ?_⟩
    · simp only [safe_migrate, if_neg hcl, hlive, hdir, if_true, hbk, heq, if_neg hemp]
    · simp only [safe_migrate, if_neg hcl, hlive, hdir, if_true, hbk, heq, if_neg hemp]
      rw [hw1]
      exact hlive

instance {ε α : Type} [DecidableEq ε] [DecidableEq α] : DecidableEq (Except ε α)
  | .ok a, .ok b =>
    decidable_of_iff (a = b) ⟨by rintro rfl; rfl, fun h => by cases h; rfl⟩
  | .ok _, .error _ => isFalse (fun h => by cases h)
  | .error _, .ok _ => isFalse (fun h => by cases h)
  | .error a, .error b =>
    decidable_of_iff (a = b) ⟨by rintro rfl; rfl, fun h => by cases h; rfl⟩

def c1Model : SqlModel Nat :=
  ⟨fun _ d => .error ("boom", d), fun _ d => .ok d, fun _ => [], fun _ => "h", id, id⟩

def c1World : World Nat := ⟨some 0, [], true, [("patch-1.sql", "x")]⟩

theorem safe_migrate_trial_failure_aborts_witness :
    ∃ m, (safe_migrate c1Model "db" "pd" "250101" 0 1 c1World).result =
        .migrationAborted m ∧
      strContains m "Live database NOT touched" ∧
      strContains m "db.250101a" ∧
      (safe_migrate c1Model "db" "pd" "250101" 0 1 c1World).world.live = c1World.live :=
  safe_migrate_trial_failure_aborts c1Model "db" "pd" "250101" 0 1 c1World 0 "db.250101a"
    ⟨some 0, [("db.250101a", 0)], true, [("patch-1.sql", "x")]⟩
    (by decide) rfl rfl (by decide)
    (Or.inl ⟨"boom", ⟨0, false⟩, [Stmt.pragmaFkOff], by decide⟩)


/-! ## Claim C8 -/

/-- C8: when `current_version >= target_version`, `safe_migrate` exits
immediately with the "no migration needed" signal, before touching
anything: the filesystem is returned unchanged (in particular no backup
is created) and no protocol event occurs.  Hence a second call with
`current_version` equal to a previously reached target version is a
no-op with no backup side effects. -/
theorem safe_migrate_noop_when_current_ge_target {δ : Type} (S : SqlModel δ)
    (dbName pdName date : String) (cur latest : Nat) (w : World δ)
    (h : latest ≤ cur) :
    safe_migrate S dbName pdName date cur latest w =
      ⟨.migrationAborted "No migration needed — already at latest version", w, []⟩ := by
  simp only [safe_migrate, if_pos h]

theorem safe_migrate_noop_witness :
    safe_migrate c3Model "db" "pd" "250101" 1 1 c3World =
      ⟨.migrationAborted "No migration needed — already at latest version",
        c3World, []⟩ :=
  safe_migrate_noop_when_current_ge_target c3Model "db" "pd" "250101" 1 1 c3World
    (by decide)

/-! ## Claim C2 -/

/-- The decidable ordering facts about one run's event-kind list: the
live database is patched at most once; live patching is strictly
preceded by a passed trial validation; the snapshot comes strictly after
backup verification and strictly before any patching; trial patching
precedes live patching. -/
abbrev kindsOk (ks : List EvKind) : Prop :=
  ks.count .patchLive ≤ 1 ∧
  eachPreceded ks .valTrialPass .patchLive ∧
  eachPreceded ks .backupVerified .snapshot ∧
  eachPreceded ks .snapshot .patchTrial ∧
  eachPreceded ks .snapshot .patchLive ∧
  eachPreceded ks .patchTrial .patchLive

/-- C2: in every `safe_migrate` run, the live database is mutated at most
once, and only after the identical patch sequence has been applied to the
disposable copy and that trial has passed row-count validation; the
"before" snapshot is taken strictly after the backup is verified and
strictly before any patch (trial or live) executes; both the trial and
the live validation compare against that same baseline snapshot; and when
no live patching event occurred the live file is unchanged.  Patching the
live connection never precedes trial validation. -/
theorem safe_migrate_temporal_ordering {δ : Type} (S : SqlModel δ)
    (dbName pdName date : String) (cur latest : Nat) (w : World δ) :
    kindsOk ((safe_migrate S dbName pdName date cur latest w).events.map evKind) ∧
    (∀ b errs,
      Ev.validateTrial b errs ∈ (safe_migrate S dbName pdName date cur latest w).events →
      Ev.snapshot b ∈ (safe_migrate S dbName pdName date cur latest w).events) ∧
    (∀ b errs,
      Ev.validateLive b errs ∈ (safe_migrate S dbName pdName date cur latest w).events →
      Ev.snapshot b ∈ (safe_migrate S dbName pdName date cur latest w).events) ∧
    (EvKind.patchLive ∉ (safe_migrate S dbName pdName date cur latest w).events.map evKind →
      (safe_migrate S dbName pdName date cur latest w).world.live = w.live) := by
  have hbk := cvb_live S dbName date w
  unfold safe_migrate
  split
  · exact ⟨by dsimp only; decide, fun b errs hb => by simp at hb, fun b errs hb => by simp at hb, fun _ => rfl⟩
  · split
    · exact ⟨by dsimp only; decide, fun b errs hb => by simp at hb, fun b errs hb => by simp at hb, fun _ => rfl⟩
    · rename_i live hlv
      split
      · split
        · rename_i e w1 hcvb
          rw [hcvb] at hbk
          exact ⟨by dsimp only; decide, fun b errs hb => by simp at hb, fun b errs hb => by simp at hb, fun _ => hbk⟩
        · rename_i bp w1 hcvb
          rw [hcvb] at hbk
          split
          · rename_i e c tr htrial
            refine ⟨?_, fun b errs hb => by simp at hb, fun b errs hb => by simp at hb,
              fun _ => hbk⟩
            dsimp only
            simp only [List.map_cons, List.map_nil, evKind]
            decide
          · rename_i p tconn tr htrial
            split
            · rename_i hEmp
              split
              · rename_i e lconn ltr hlive
                refine ⟨?_, ?_, ?_, ?_⟩
                · dsimp only
                  simp only [List.map_cons, List.map_nil, evKind, hEmp]
                  decide
                · intro b errs2 hb
                  simp only [List.mem_cons, List.not_mem_nil, or_false] at hb
                  rcases hb with h | h | h | h | h <;>
                    first
                    | exact Ev.noConfusion h
                    | (injection h with h1 h2; subst h1; simp)
                · intro b errs2 hb
                  simp only [List.mem_cons, List.not_mem_nil, or_false] at hb
                  rcases hb with h | h | h | h | h <;> exact Ev.noConfusion h
                · intro hno
                  exact absurd (List.mem_map.mpr ⟨Ev.patchLive, by simp, rfl⟩) hno
              · rename_i p2 lconn ltr hlive
                split
                · rename_i hLEmp
                  refine ⟨?_, ?_, ?_, ?_⟩
                  · dsimp only
                    simp only [List.map_cons, List.map_nil, evKind, hEmp, hLEmp]
                    decide
                  · intro b errs2 hb
                    simp only [List.mem_cons, List.not_mem_nil, or_false] at hb
                    rcases hb with h | h | h | h | h | h <;>
                      first
                      | exact Ev.noConfusion h
                      | (injection h with h1 h2; subst h1; simp)
                  · intro b errs2 hb
                    simp only [List.mem_cons, List.not_mem_nil, or_false] at hb
                    rcases hb with h | h | h | h | h | h <;>
                      first
                      | exact Ev.noConfusion h
                      | (injection h with h1 h2; subst h1; simp)
                  · intro hno
                    exact absurd (List.mem_map.mpr ⟨Ev.patchLive, by simp, rfl⟩) hno
                · rename_i hLEmp
                  have hLEmp2 := Bool.eq_false_iff.mpr hLEmp
                  refine ⟨?_, ?_, ?_, ?_⟩
                  · dsimp only
                    simp only [List.map_cons, List.map_nil, evKind, hEmp, hLEmp2]
                    decide
                  · intro b errs2 hb
                    simp only [List.mem_cons, List.not_mem_nil, or_false] at hb
                    rcases hb with h | h | h | h | h | h <;>
                      first
                      | exact Ev.noConfusion h
                      | (injection h with h1 h2; subst h1; simp)
                  · intro b errs2 hb
                    simp only [List.mem_cons, List.not_mem_nil, or_false] at hb
                    rcases hb with h | h | h | h | h | h <;>
                      first
                      | exact Ev.noConfusion h
                      | (injection h with h1 h2; subst h1; simp)
                  · intro hno
                    exact absurd (List.mem_map.mpr ⟨Ev.patchLive, by simp, rfl⟩) hno
            · rename_i hEmp
              have hEmp2 := Bool.eq_false_iff.mpr hEmp
              refine ⟨?_, ?_, ?_, fun _ => hbk⟩
              · dsimp only
                simp only [List.map_cons, List.map_nil, evKind, hEmp2]
                decide
              · intro b errs2 hb
                simp only [List.mem_cons, List.not_mem_nil, or_false] at hb
                rcases hb with h | h | h | h <;>
                  first
                  | exact Ev.noConfusion h
                  | (injection h with h1 h2; subst h1; simp)
              · intro b errs2 hb
                simp only [List.mem_cons, List.not_mem_nil, or_false] at hb
                rcases hb with h | h | h | h <;> exact Ev.noConfusion h
      · exact ⟨by dsimp only; decide, fun b errs hb => by simp at hb, fun b errs hb => by simp at hb, fun _ => rfl⟩

theorem safe_migrate_temporal_ordering_witness :
    kindsOk ((safe_migrate c3Model "db" "pd" "250101" 0 1 c3World).events.map evKind) ∧
    (∀ b errs,
      Ev.validateTrial b errs ∈ (safe_migrate c3Model "db" "pd" "250101" 0 1 c3World).events →
      Ev.snapshot b ∈ (safe_migrate c3Model "db" "pd" "250101" 0 1 c3World).events) ∧
    (∀ b errs,
      Ev.validateLive b errs ∈ (safe_migrate c3Model "db" "pd" "250101" 0 1 c3World).events →
      Ev.snapshot b ∈ (safe_migrate c3Model "db" "pd" "250101" 0 1 c3World).events) ∧
    (EvKind.patchLive ∉
        (safe_migrate c3Model "db" "pd" "250101" 0 1 c3World).events.map evKind →
      (safe_migrate c3Model "db" "pd" "250101" 0 1 c3World).world.live = c3World.live) :=
  safe_migrate_temporal_ordering c3Model "db" "pd" "250101" 0 1 c3World

/-! ## Claim C5 -/

theorem cvb_ok_backups {δ : Type} (S : SqlModel δ) (dbName date : String)
    (w : World δ) (bp : String) (w1 : World δ)
    (h : create_verified_backup S dbName date w = (.ok bp, w1)) :
    bp ∈ w1.backups.map Prod.fst := by
  unfold create_verified_backup at h
  cases hl : w.live with
  | none => rw [hl] at h; exact absurd h (by simp)
  | some l =>
    rw [hl] at h
    dsimp only at h
    cases hfs : freeSlot (dbName ++ "." ++ date) (w.backups.map Prod.fst) with
    | none => rw [hfs] at h; exact absurd h (by simp)
    | some cand =>
      rw [hfs] at h
      dsimp only at h
      by_cases hne : S.hash (S.copyBackup l) ≠ S.hash l
      · rw [if_pos hne] at h
        exact absurd h (by simp)
      · rw [if_neg hne] at h
        simp only [Prod.mk.injEq, Except.ok.injEq] at h
        obtain ⟨rfl, rfl⟩ := h
        simp

def c5Model : SqlModel Nat :=
  ⟨fun _ d => if d == 1 then .ok 2 else .error ("no such table: main", d),
   fun _ d => .ok d, fun _ => [], fun _ => "h", id, fun _ => 1⟩

def c5World : World Nat := ⟨some 0, [], true, [("patch-1.sql", "s")]⟩

/-- C5 counterexample: a SQL error raised while patching the live
database (reachable because the trial scratch copy is never
checksum-verified, so its content can differ from the live file) does NOT
surface as a `MigrationAborted` directing the operator to the backup — it
escapes `safe_migrate` as the raw `sqlite3.Error`, outside the declared
abort taxonomy.  Here the trial (run on scratch content `1`) passes while
the live run (on content `0`) raises. -/
theorem safe_migrate_live_sql_error_escapes :
    (safe_migrate c5Model "db" "pd" "250101" 0 1 c5World).result =
      .sqlError "no such table: main" := by decide

/-- C5 amended: every non-success outcome of `safe_migrate` surfaces as a
`MigrationAborted`, a `RuntimeError`, or — in exactly one case — a raw
SQL error escaping uncaught: the latter happens only while patching the
live database, after the trial has passed validation and live patching
started, at which point the verified backup does exist on disk (though
the escaping error does not mention it). -/
theorem safe_migrate_sql_error_only_after_trial {δ : Type} (S : SqlModel δ)
    (dbName pdName date : String) (cur latest : Nat) (w : World δ) :
    ∀ e, (safe_migrate S dbName pdName date cur latest w).result = .sqlError e →
      EvKind.valTrialPass ∈ (safe_migrate S dbName pdName date cur latest w).events.map evKind ∧
      EvKind.patchLive ∈ (safe_migrate S dbName pdName date cur latest w).events.map evKind ∧
      ∃ bp, Ev.backupVerified bp ∈ (safe_migrate S dbName pdName date cur latest w).events ∧
        bp ∈ (safe_migrate S dbName pdName date cur latest w).world.backups.map Prod.fst := by
  unfold safe_migrate
  split
  · intro e he; exact absurd he (by simp)
  · split
    · intro e he; exact absurd he (by simp)
    · rename_i live hlv
      split
      · split
        · rename_i e0 w1 hcvb
          intro e he; exact absurd he (by simp)
        · rename_i bp w1 hcvb
          split
          · rename_i e0 c tr htrial
            intro e he; exact absurd he (by simp)
          · rename_i p tconn tr htrial
            split
            · rename_i hEmp
              split
              · rename_i e0 lconn ltr hlive
                intro e he
                refine ⟨?_, ?_, bp, by simp, ?_⟩
                · exact List.mem_map.mpr ⟨Ev.validateTrial (S.rowCounts live)
                    (validate_row_counts (S.rowCounts live) (S.rowCounts tconn.db)),
                    by simp, by simp [evKind, hEmp]⟩
                · exact List.mem_map.mpr ⟨Ev.patchLive, by simp, rfl⟩
                · exact cvb_ok_backups S dbName date w bp w1 hcvb
              · rename_i p2 lconn ltr hlive
                split
                · intro e he; exact absurd he (by simp)
                · intro e he; exact absurd he (by simp)
            · rename_i hEmp
              intro e he; exact absurd he (by simp)
      · intro e he; exact absurd he (by simp)

theorem safe_migrate_sql_error_only_after_trial_witness :
    EvKind.valTrialPass ∈
      (safe_migrate c5Model "db" "pd" "250101" 0 1 c5World).events.map evKind ∧
    EvKind.patchLive ∈
      (safe_migrate c5Model "db" "pd" "250101" 0 1 c5World).events.map evKind ∧
    ∃ bp, Ev.backupVerified bp ∈ (safe_migrate c5Model "db" "pd" "250101" 0 1 c5World).events ∧
      bp ∈ (safe_migrate c5Model "db" "pd" "250101" 0 1 c5World).world.backups.map Prod.fst :=
  safe_migrate_sql_error_only_after_trial c5Model "db" "pd" "250101" 0 1 c5World
    "no such table: main" (by decide)

/-! ## Claims C6, C7, C9 -/

theorem discoverPatches_mem (files : List (String × String)) (v : Nat) (nm b : String) :
    (v, nm, b) ∈ discoverPatches files ↔
      (nm, b) ∈ files ∧ globPatchSql nm = true ∧ rePatchVersion nm = some v := by
  unfold discoverPatches
  rw [List.mem_filterMap]
  constructor
  · rintro ⟨⟨n0, b0⟩, hmem, hf⟩
    dsimp only at hf
    by_cases hg : globPatchSql n0
    · rw [if_pos hg] at hf
      cases hre : rePatchVersion n0 with
      | none => rw [hre] at hf; cases hf
      | some v0 =>
        rw [hre] at hf
        simp only [Option.some.injEq, Prod.mk.injEq] at hf
        obtain ⟨rfl, rfl, rfl⟩ := hf
        exact ⟨hmem, hg, hre⟩
    · rw [if_neg hg] at hf; cases hf
  · rintro ⟨hmem, hg, hre⟩
    exact ⟨(nm, b), hmem, by simp [hg, hre]⟩

theorem script_mem_blocks (b : String) :
    ∀ ps : List (Nat × String), Stmt.script b ∈ blockStmts ps → ∃ v, (v, b) ∈ ps := by
  intro ps
  induction ps with
  | nil => intro h; cases h
  | cons hd rest ih =>
    obtain ⟨v0, b0⟩ := hd
    intro h
    simp only [blockStmts, List.mem_cons] at h
    rcases h with h | h | h | h | h
    · cases h
    · obtain rfl : b = b0 := by injection h
      exact ⟨v0, List.mem_cons_self _ _⟩
    · cases h
    · cases h
    · obtain ⟨v, hv⟩ := ih h
      exact ⟨v, List.mem_cons_of_mem _ hv⟩

/-- C6 amended: the applier considers exactly the files accepted by both
the glob `patch-*.sql` and the start-anchored regex `patch-(\d+)\.sql`
(which includes names such as `patch-1.sql.sql`; all other files are
ignored); it applies the eligible patches in strictly increasing version
order, skipping every version `<= current_version` or `> target_version`;
a version is applied iff some eligible file carries it and it is in
range; and the returned version is the last (highest) applied version, or
`current_version` unchanged when no eligible patch exists — which is not
an error. -/
theorem applyPatchesTo_ok_characterization {δ : Type} (S : SqlModel δ) (conn : Conn δ)
    (cur latest : Nat) (files : List (String × String)) :
    ∀ vf c' tr, applyPatchesTo S conn cur latest files = (.ok (vf, c'), tr) →
      List.Pairwise (· < ·) (setVers tr) ∧
      (∀ v, v ∈ setVers tr ↔ ∃ nm b, (nm, b) ∈ files ∧ globPatchSql nm = true ∧
        rePatchVersion nm = some v ∧ cur < v ∧ v ≤ latest) ∧
      vf = (setVers tr).getLastD cur ∧
      (∀ b, Stmt.script b ∈ tr → ∃ nm v, (nm, b) ∈ files ∧ globPatchSql nm = true ∧
        rePatchVersion nm = some v ∧ cur < v ∧ v ≤ latest) := by
  intro vf c' tr h
  unfold applyPatchesTo at h
  have hsorted := sortLe_patchLe_version_pairwise (discoverPatches files)
  obtain ⟨ha, hb, hc, ps, hps1, hps2, hps3⟩ :=
    applyLoop_ok S latest _ conn cur vf c' tr hsorted h
  refine ⟨hb, ?_, hc, ?_⟩
  · intro v
    rw [ha v]
    constructor
    · rintro ⟨e, he, h1, hcv, hvl⟩
      obtain ⟨v0, nm, b⟩ := e
      obtain rfl : v0 = v := h1
      have he' := (sortLe_perm patchLe _).mem_iff.mp he
      rw [discoverPatches_mem] at he'
      exact ⟨nm, b, he'.1, he'.2.1, he'.2.2, hcv, hvl⟩
    · rintro ⟨nm, b, hmem, hg, hre, hcv, hvl⟩
      refine ⟨(v, nm, b), ?_, rfl, hcv, hvl⟩
      exact (sortLe_perm patchLe _).mem_iff.mpr
        ((discoverPatches_mem files v nm b).mpr ⟨hmem, hg, hre⟩)
  · intro b hbmem
    rw [hps1] at hbmem
    obtain ⟨v, hv⟩ := script_mem_blocks b ps hbmem
    obtain ⟨nm, hnm⟩ := hps3 (v, b) hv
    have hvers : v ∈ setVers tr := by
      rw [← hps2]
      exact List.mem_map.mpr ⟨(v, b), hv, rfl⟩
    obtain ⟨e2, he2, h12, hcv2, hvl2⟩ := (ha v).mp hvers
    have he' := (sortLe_perm patchLe _).mem_iff.mp hnm
    rw [discoverPatches_mem] at he'
    exact ⟨nm, v, he'.1, he'.2.1, he'.2.2, hcv2, hvl2⟩

/-- C6 counterexample: the file name `patch-1.sql.sql` is NOT of the
`patch-<N>.sql` convention, yet the applier considers it and applies it:
it passes the glob `patch-*.sql` (it ends in `.sql`) and the
start-anchored regex `patch-(\d+)\.sql` (which is not end-anchored), so
its script is executed as version 1. -/
theorem applyPatches_considers_nonconvention_file :
    strictPatchName "patch-1.sql.sql" = false ∧
    Stmt.script "B" ∈
      (applyPatchesTo c3Model ⟨0, false⟩ 0 5 [("patch-1.sql.sql", "B")]).2 := by
  decide

theorem applyPatchesTo_ok_characterization_witness :
    List.Pairwise (· < ·)
      (setVers [Stmt.pragmaFkOff, Stmt.script "X", Stmt.pragmaFkOn, Stmt.setVersion 2]) ∧
    (∀ v, v ∈ setVers [Stmt.pragmaFkOff, Stmt.script "X", Stmt.pragmaFkOn,
        Stmt.setVersion 2] ↔
      ∃ nm b, (nm, b) ∈ [("patch-2.sql", "X")] ∧ globPatchSql nm = true ∧
        rePatchVersion nm = some v ∧ 0 < v ∧ v ≤ 5) ∧
    (2 : Nat) = (setVers [Stmt.pragmaFkOff, Stmt.script "X", Stmt.pragmaFkOn,
        Stmt.setVersion 2]).getLastD 0 ∧
    (∀ b, Stmt.script b ∈ [Stmt.pragmaFkOff, Stmt.script "X", Stmt.pragmaFkOn,
        Stmt.setVersion 2] →
      ∃ nm v, (nm, b) ∈ [("patch-2.sql", "X")] ∧ globPatchSql nm = true ∧
        rePatchVersion nm = some v ∧ 0 < v ∧ v ≤ 5) :=
  applyPatchesTo_ok_characterization c3Model ⟨0, false⟩ 0 5 [("patch-2.sql", "X")]
    2 ⟨0, true⟩ [Stmt.pragmaFkOff, Stmt.script "X", Stmt.pragmaFkOn, Stmt.setVersion 2]
    (by decide)

/-- C7 counterexample: with `isolation_level=None` each executed
statement is its own transaction, and the schema-version update is a
separate statement after the patch script: interrupting the run after two
statements (`committedUpTo … 2`) leaves the patch's script effects
committed while its `schema_version` row update is not, even though the
full trace does contain the version update.  So there IS a possible
execution with the patch committed and no version row. -/
theorem applyPatches_version_row_not_atomic :
    Stmt.script "B" ∈
      committedUpTo (applyPatchesTo c3Model ⟨0, false⟩ 0 5 [("patch-1.sql", "B")]).2 2 ∧
    Stmt.setVersion 1 ∉
      committedUpTo (applyPatchesTo c3Model ⟨0, false⟩ 0 5 [("patch-1.sql", "B")]).2 2 ∧
    Stmt.setVersion 1 ∈ (applyPatchesTo c3Model ⟨0, false⟩ 0 5 [("patch-1.sql", "B")]).2 := by
  decide

/-- C7 amended: the schema version is recorded by a separate autocommit
statement immediately after each patch's script (and its PRAGMA pair),
not atomically in the same transaction: every successful run's statement
trace decomposes into per-patch blocks `PRAGMA OFF; script; PRAGMA ON;
INSERT schema_version`, so only an uninterrupted run pairs each script
with its version update. -/
theorem applyPatchesTo_version_separate_statement {δ : Type} (S : SqlModel δ)
    (conn : Conn δ) (cur latest : Nat) (files : List (String × String)) :
    ∀ vf c' tr, applyPatchesTo S conn cur latest files = (.ok (vf, c'), tr) →
      ∃ ps : List (Nat × String), tr = blockStmts ps ∧ ps.map Prod.fst = setVers tr := by
  intro vf c' tr h
  unfold applyPatchesTo at h
  obtain ⟨_, _, _, ps, hps1, hps2, _⟩ :=
    applyLoop_ok S latest _ conn cur vf c' tr
      (sortLe_patchLe_version_pairwise (discoverPatches files)) h
  exact ⟨ps, hps1, hps2⟩

theorem applyPatchesTo_version_separate_statement_witness :
    ∃ ps : List (Nat × String),
      [Stmt.pragmaFkOff, Stmt.script "B", Stmt.pragmaFkOn, Stmt.setVersion 1] =
        blockStmts ps ∧
      ps.map Prod.fst =
        setVers [Stmt.pragmaFkOff, Stmt.script "B", Stmt.pragmaFkOn, Stmt.setVersion 1] :=
  applyPatchesTo_version_separate_statement c3Model ⟨0, false⟩ 0 5 [("patch-1.sql", "B")]
    1 ⟨0, true⟩ [Stmt.pragmaFkOff, Stmt.script "B", Stmt.pragmaFkOn, Stmt.setVersion 1]
    (by decide)

/-- C9 counterexample: when the patch script itself raises a SQL error,
the `PRAGMA foreign_keys = ON` on line 123 never executes (there is no
`try/finally`), so the applier terminates by a propagated SQL error with
foreign-key enforcement still disabled on the connection (`fk = false`
in the returned connection state). -/
theorem applyPatches_fk_left_off_on_script_error :
    (applyPatchesTo c1Model ⟨0, false⟩ 0 1 [("patch-1.sql", "x")]).1 =
      Except.error ("boom", Conn.mk 0 false) := by
  decide

/-- C9 amended: foreign-key enforcement is disabled before each patch
script and re-enabled right after a successful script — so on normal
termination the flag is on whenever any patch ran (and untouched
otherwise) — but on a propagated SQL error the flag is off exactly when
the failing statement was the patch script itself (enforcement is NOT
restored on that path; it is restored when the later version-update
statement is what failed). -/
theorem applyPatchesTo_fk_restoration {δ : Type} (S : SqlModel δ) (conn : Conn δ)
    (cur latest : Nat) (files : List (String × String)) :
    (∀ vf c' tr, applyPatchesTo S conn cur latest files = (.ok (vf, c'), tr) →
      c'.fk = (if tr = [] then conn.fk else true)) ∧
    (∀ e c' tr, applyPatchesTo S conn cur latest files = (.error (e, c'), tr) →
      (c'.fk = false ↔ tr.getLast? = some Stmt.pragmaFkOff)) := by
  constructor
  · intro vf c' tr h
    exact applyLoop_ok_fk S latest _ conn cur vf c' tr h
  · intro e c' tr h
    exact (applyLoop_error_fk S latest _ conn cur e c' tr h).2

theorem applyPatchesTo_fk_restoration_witness :
    (Conn.mk (0 : Nat) false).fk = false ↔
      [Stmt.pragmaFkOff].getLast? = some Stmt.pragmaFkOff :=
  (applyPatchesTo_fk_restoration c1Model ⟨0, false⟩ 0 1 [("patch-1.sql", "x")]).2
    "boom" ⟨0, false⟩ [Stmt.pragmaFkOff] (by decide)

/-! ## Claims C4 and C10 -/

/-- The head entry of `before` contributes a (possibly empty) prefix of
errors, all about its own table. -/
theorem vErrors_cons (table : String) (cb0 : Nat)
    (rest after : List (String × Nat)) :
    ∃ hd, vErrors ((table, cb0) :: rest) after = hd ++ vErrors rest after ∧
      ∀ e ∈ hd, errTable e = table := by
  by_cases hscr : strEndsWith table "_new"
  · exact ⟨[], by simp [vErrors, hscr], by simp⟩
  · cases hlook : List.lookup table after with
    | none =>
      exact ⟨[VErr.missing table cb0], by simp [vErrors, hscr, hlook],
        by simp [errTable]⟩
    | some ca =>
      by_cases hlt : ca < cb0
      · exact ⟨[VErr.lost table cb0 ca], by simp [vErrors, hscr, hlook, hlt],
          by simp [errTable]⟩
      · exact ⟨[], by simp [vErrors, hscr, hlook, hlt], by simp⟩

theorem vErrors_count_missing : ∀ (before after : List (String × Nat)),
    (before.map Prod.fst).Nodup →
    ∀ t cb, (t, cb) ∈ before → strEndsWith t "_new" = false →
      List.lookup t after = none →
      (vErrors before after).count (VErr.missing t cb) = 1 := by
  intro before
  induction before with
  | nil => intro after _ t cb h; cases h
  | cons hd rest ih =>
    obtain ⟨table, cb0⟩ := hd
    intro after hnd t cb hmem hscr hlook
    simp only [List.map_cons, List.nodup_cons] at hnd
    obtain ⟨hnotin, hndrest⟩ := hnd
    rcases List.mem_cons.mp hmem with heq | htail
    · obtain ⟨rfl, rfl⟩ : t = table ∧ cb = cb0 := by
        rw [Prod.mk.injEq] at heq
        exact heq
      have hrw : vErrors ((t, cb) :: rest) after =
          VErr.missing t cb :: vErrors rest after := by
        simp [vErrors, hscr, hlook]
      rw [hrw, List.count_cons_self]
      have hzero : (vErrors rest after).count (VErr.missing t cb) = 0 := by
        rw [List.count_eq_zero]
        intro hin
        exact hnotin (by
          have h2 := vErrors_table_mem rest after _ hin
          simpa [errTable] using h2)
      rw [hzero]
    · have hne : t ≠ table := by
        intro heq2
        exact hnotin (heq2 ▸ List.mem_map.mpr ⟨(t, cb), htail, rfl⟩)
      obtain ⟨hdl, hcons, hall⟩ := vErrors_cons table cb0 rest after
      rw [hcons, List.count_append]
      have h0 : hdl.count (VErr.missing t cb) = 0 := by
        rw [List.count_eq_zero]
        intro hin
        have h3 := hall _ hin
        simp only [errTable] at h3
        exact hne h3
      rw [h0, ih after hndrest t cb htail hscr hlook]

theorem vErrors_count_lost : ∀ (before after : List (String × Nat)),
    (before.map Prod.fst).Nodup →
    ∀ t cb ca, (t, cb) ∈ before → strEndsWith t "_new" = false →
      List.lookup t after = some ca → ca < cb →
      (vErrors before after).count (VErr.lost t cb ca) = 1 := by
  intro before
  induction before with
  | nil => intro after _ t cb ca h; cases h
  | cons hd rest ih =>
    obtain ⟨table, cb0⟩ := hd
    intro after hnd t cb ca hmem hscr hlook hlt
    simp only [List.map_cons, List.nodup_cons] at hnd
    obtain ⟨hnotin, hndrest⟩ := hnd
    rcases List.mem_cons.mp hmem with heq | htail
    · obtain ⟨rfl, rfl⟩ : t = table ∧ cb = cb0 := by
        rw [Prod.mk.injEq] at heq
        exact heq
      have hrw : vErrors ((t, cb) :: rest) after =
          VErr.lost t cb ca :: vErrors rest after := by
        simp [vErrors, hscr, hlook, hlt]
      rw [hrw, List.count_cons_self]
      have hzero : (vErrors rest after).count (VErr.lost t cb ca) = 0 := by
        rw [List.count_eq_zero]
        intro hin
        exact hnotin (by
          have h2 := vErrors_table_mem rest after _ hin
          simpa [errTable] using h2)
      rw [hzero]
    · have hne : t ≠ table := by
        intro heq2
        exact hnotin (heq2 ▸ List.mem_map.mpr ⟨(t, cb), htail, rfl⟩)
      obtain ⟨hdl, hcons, hall⟩ := vErrors_cons table cb0 rest after
      rw [hcons, List.count_append]
      have h0 : hdl.count (VErr.lost t cb ca) = 0 := by
        rw [List.count_eq_zero]
        intro hin
        have h3 := hall _ hin
        simp only [errTable] at h3
        exact hne h3
      rw [h0, ih after hndrest t cb ca htail hscr hlook hlt]

theorem vErrors_nil_of_ok : ∀ (before after : List (String × Nat)),
    (∀ p ∈ before, strEndsWith p.1 "_new" = true ∨
      ∃ ca, List.lookup p.1 after = some ca ∧ p.2 ≤ ca) →
    vErrors before after = [] := by
  intro before
  induction before with
  | nil => intro after _; rfl
  | cons hd rest ih =>
    obtain ⟨table, cb0⟩ := hd
    intro after hok
    have hrest := ih after (fun p hp => hok p (List.mem_cons_of_mem _ hp))
    rcases hok (table, cb0) (List.mem_cons_self _ _) with hscr | ⟨ca, hlook, hle⟩
    · simp [vErrors, hscr, hrest]
    · simp [vErrors, hlook, Nat.not_lt.mpr hle, hrest]

theorem vErrors_missing_mem : ∀ (before after : List (String × Nat)) (t : String) (cb : Nat),
    (t, cb) ∈ before → strEndsWith t "_new" = false → List.lookup t after = none →
    VErr.missing t cb ∈ vErrors before after := by
  intro before
  induction before with
  | nil => intro after t cb h; cases h
  | cons hd rest ih =>
    obtain ⟨table, cb0⟩ := hd
    intro after t cb hmem hscr hlook
    rcases List.mem_cons.mp hmem with heq | htail
    · obtain ⟨rfl, rfl⟩ : t = table ∧ cb = cb0 := by
        rw [Prod.mk.injEq] at heq
        exact heq
      simp [vErrors, hscr, hlook]
    · obtain ⟨hdl, hcons, _⟩ := vErrors_cons table cb0 rest after
      rw [hcons]
      exact List.mem_append_right _ (ih after t cb htail hscr hlook)

/-- C4: on snapshots with unique table names, `validate_row_counts`
renders exactly the structured error list `vErrors`, which holds exactly
one table-missing error (naming the table and its prior count) per
non-scratch table of `before` absent from `after`, exactly one rows-lost
error (naming the table and both counts) per non-scratch table whose
count strictly decreased, and nothing else; every error names a table of
`before` (so tables present only in `after` are never flagged); and the
result is empty whenever every table of `before` is a scratch table or
kept an equal or greater count. -/
theorem validate_row_counts_characterization (before after : List (String × Nat))
    (hnd : (before.map Prod.fst).Nodup) :
    validate_row_counts before after = (vErrors before after).map renderVErr ∧
    (∀ t cb, (t, cb) ∈ before → strEndsWith t "_new" = false →
      List.lookup t after = none →
      (vErrors before after).count (VErr.missing t cb) = 1) ∧
    (∀ t cb ca, (t, cb) ∈ before → strEndsWith t "_new" = false →
      List.lookup t after = some ca → ca < cb →
      (vErrors before after).count (VErr.lost t cb ca) = 1) ∧
    (∀ e ∈ vErrors before after,
      (∀ t cb, e = VErr.missing t cb →
        (t, cb) ∈ before ∧ strEndsWith t "_new" = false ∧
          List.lookup t after = none) ∧
      (∀ t cb ca, e = VErr.lost t cb ca →
        (t, cb) ∈ before ∧ strEndsWith t "_new" = false ∧
          List.lookup t after = some ca ∧ ca < cb)) ∧
    (∀ e ∈ vErrors before after, errTable e ∈ before.map Prod.fst) ∧
    ((∀ p ∈ before, strEndsWith p.1 "_new" = true ∨
        ∃ ca, List.lookup p.1 after = some ca ∧ p.2 ≤ ca) →
      validate_row_counts before after = []) := by
  refine ⟨validate_eq_render before after, vErrors_count_missing before after hnd,
    vErrors_count_lost before after hnd, vErrors_shape before after,
    vErrors_table_mem before after, ?_⟩
  intro hok
  rw [validate_eq_render, vErrors_nil_of_ok before after hok]
  rfl

theorem validate_row_counts_characterization_witness :
    validate_row_counts [("t", 5), ("gone", 3), ("tmp_new", 9)] [("t", 2)] =
      (vErrors [("t", 5), ("gone", 3), ("tmp_new", 9)] [("t", 2)]).map renderVErr ∧
    (∀ t cb, (t, cb) ∈ [("t", 5), ("gone", 3), ("tmp_new", 9)] →
      strEndsWith t "_new" = false →
      List.lookup t [("t", 2)] = none →
      (vErrors [("t", 5), ("gone", 3), ("tmp_new", 9)] [("t", 2)]).count
        (VErr.missing t cb) = 1) ∧
    (∀ t cb ca, (t, cb) ∈ [("t", 5), ("gone", 3), ("tmp_new", 9)] →
      strEndsWith t "_new" = false →
      List.lookup t [("t", 2)] = some ca → ca < cb →
      (vErrors [("t", 5), ("gone", 3), ("tmp_new", 9)] [("t", 2)]).count
        (VErr.lost t cb ca) = 1) ∧
    (∀ e ∈ vErrors [("t", 5), ("gone", 3), ("tmp_new", 9)] [("t", 2)],
      (∀ t cb, e = VErr.missing t cb →
        (t, cb) ∈ [("t", 5), ("gone", 3), ("tmp_new", 9)] ∧
          strEndsWith t "_new" = false ∧ List.lookup t [("t", 2)] = none) ∧
      (∀ t cb ca, e = VErr.lost t cb ca →
        (t, cb) ∈ [("t", 5), ("gone", 3), ("tmp_new", 9)] ∧
          strEndsWith t "_new" = false ∧
          List.lookup t [("t", 2)] = some ca ∧ ca < cb)) ∧
    (∀ e ∈ vErrors [("t", 5), ("gone", 3), ("tmp_new", 9)] [("t", 2)],
      errTable e ∈ ([("t", 5), ("gone", 3), ("tmp_new", 9)] :
        List (String × Nat)).map Prod.fst) ∧
    ((∀ p ∈ ([("t", 5), ("gone", 3), ("tmp_new", 9)] : List (String × Nat)),
        strEndsWith p.1 "_new" = true ∨
        ∃ ca, List.lookup p.1 [("t", 2)] = some ca ∧ p.2 ≤ ca) →
      validate_row_counts [("t", 5), ("gone", 3), ("tmp_new", 9)] [("t", 2)] = []) :=
  validate_row_counts_characterization [("t", 5), ("gone", 3), ("tmp_new", 9)]
    [("t", 2)] (by decide)

/-- C10: the designated scratch-table suffix is precisely `_new`: a table
of `before` whose name ends in `_new` is never reported by the validator
— even when it vanished entirely (so a genuine data table named, say,
`contexts_new` can disappear without any validation error) — while a
missing table whose name does not end in `_new` is always reported. -/
theorem validate_scratch_suffix_exactly_new (before after : List (String × Nat))
    (t : String) (cb : Nat) :
    (strEndsWith t "_new" = true → ∀ e ∈ vErrors before after, errTable e ≠ t) ∧
    ((t, cb) ∈ before → strEndsWith t "_new" = false → List.lookup t after = none →
      VErr.missing t cb ∈ vErrors before after ∧
      missingMsg t cb ∈ validate_row_counts before after) := by
  constructor
  · intro hscr e he heq
    have h2 := vErrors_no_scratch before after e he
    rw [heq, hscr] at h2
    cases h2
  · intro hmem hscr hlook
    have hm := vErrors_missing_mem before after t cb hmem hscr hlook
    refine ⟨hm, ?_⟩
    rw [validate_eq_render]
    exact List.mem_map.mpr ⟨VErr.missing t cb, hm, rfl⟩

theorem validate_scratch_suffix_exactly_new_witness :
    (∀ e ∈ vErrors [("contexts_new", 5)] [], errTable e ≠ "contexts_new") ∧
    VErr.missing "contexts" 3 ∈ vErrors [("contexts", 3)] [] ∧
    missingMsg "contexts" 3 ∈ validate_row_counts [("contexts", 3)] [] :=
  ⟨(validate_scratch_suffix_exactly_new [("contexts_new", 5)] [] "contexts_new" 5).1
      (by decide),
   (validate_scratch_suffix_exactly_new [("contexts", 3)] [] "contexts" 3).2
      (by decide) (by decide) (by decide)⟩
